import Mathlib

/-!
Verification development for the `lazing` crate (src/src/lib.rs), a
procedural attribute macro `lazy` that rewrites

  `$Visibility static $NAME: $Type = $EXPR;`

into a unit marker struct plus an `impl std::ops::Deref` whose `deref`
performs one-time initialization guarded by `std::sync::Once`.

The development is a shallow embedding at the token level: a Rust token
is a text together with a span; `::` and `||` (joint punctuation pairs)
are modelled as single tokens.  The parser of `LazyStatic`
(lib.rs:32-49), the `lazy` entry point (lib.rs:66-135) and the token
template produced by `quote!` (lib.rs:112-132) are translated directly.
The runtime behaviour of the generated `deref` body (lib.rs:119-130) is
modelled twice: sequentially (`derefCall`/`runSeq`) and as an
interleaving semantics of racing threads (`step`/`runSched`) reflecting
the `std::sync::Once` state machine.
-/

namespace Lazing

/-- Span of a token: either the macro's own call site (tokens produced by
`quote!`) or position `i` of the macro input.  `quote_spanned!` stamps its
literal tokens with a given span; interpolated tokens keep their own. -/
inductive Span where
  | callSite : Span
  | input : Nat → Span
deriving DecidableEq, Repr

/-- A Rust token: its text and its span.  Joint punctuation pairs `::` and
`||` are modelled as single tokens. -/
structure Tok where
  text : String
  span : Span
deriving DecidableEq, Repr

/-- Token produced by plain `quote!`: call-site span. -/
def q (s : String) : Tok := ⟨s, Span.callSite⟩

/-- Texts of a token list, forgetting spans. -/
def textsOf (l : List Tok) : List String := l.map Tok.text

/-- Models `Spanned::span` on a token sequence (the join of the spans of
its tokens) as the span of its first token; `callSite` when empty. -/
def spanJoin (l : List Tok) : Span :=
  match l with
  | [] => Span.callSite
  | t :: _ => t.span

/-- Rust keywords, which `syn::Ident::parse` rejects as identifiers. -/
def rustKeywords : List String :=
  ["as", "break", "const", "continue", "crate", "dyn", "else", "enum",
   "extern", "false", "fn", "for", "if", "impl", "in", "let", "loop",
   "match", "mod", "move", "mut", "pub", "ref", "return", "self", "Self",
   "static", "struct", "super", "trait", "true", "type", "union",
   "unsafe", "use", "where", "while"]

def isIdentStart (c : Char) : Bool := c.isAlpha || c = '_'

def isIdentChar (c : Char) : Bool := c.isAlphanum || c = '_'

/-- Whether a token text is a valid (non-keyword) Rust identifier. -/
def isIdentStr (s : String) : Bool :=
  match s.toList with
  | [] => false
  | c :: cs => isIdentStart c && cs.all isIdentChar && !(rustKeywords.contains s)

/-- The intermediate parse representation of the annotated item
(lib.rs:25-30). -/
structure LazyStatic where
  visibility : List Tok
  name : Tok
  ty : List Tok
  init : List Tok
deriving DecidableEq, Repr

/-- Models `syn::Visibility::parse`: consumes a leading `pub`, optionally
followed by a `(crate)`, `(self)` or `(super)` restriction; consumes
nothing otherwise.  (The rarer `pub(in path)` form is not modelled.)  It
never fails.  Returns the consumed visibility tokens and the rest. -/
def parseVis : List Tok → List Tok × List Tok
  | [] => ([], [])
  | t :: rest =>
    if t.text = "pub" then
      match rest with
      | o :: x :: c :: r2 =>
        if o.text = "(" && c.text = ")" &&
            (x.text = "crate" || x.text = "self" || x.text = "super") then
          ([t, o, x, c], r2)
        else ([t], rest)
      | _ => ([t], rest)
    else ([], t :: rest)

/-- Models `input.parse::<Token![...]>()?`: consumes one token of the
given text or fails. -/
def expectTok (s : String) : List Tok → Except String (List Tok)
  | [] => Except.error ("expected " ++ s)
  | t :: r =>
    if t.text = s then Except.ok r else Except.error ("expected " ++ s)

/-- Models `input.parse::<Ident>()?`. -/
def parseIdent : List Tok → Except String (Tok × List Tok)
  | [] => Except.error "expected identifier"
  | t :: r =>
    if isIdentStr t.text then Except.ok (t, r)
    else Except.error "expected identifier"

/-- Opening bracket tokens; angle brackets count only while parsing a
type (`ang = true`), mirroring that `syn::Type` balances generics. -/
def isOpenTok (ang : Bool) (s : String) : Bool :=
  s = "(" || s = "[" || s = "\x7b" || (ang && s = "<")

def isCloseTok (ang : Bool) (s : String) : Bool :=
  s = ")" || s = "]" || s = "\x7d" || (ang && s = ">")

/-- Bracket-depth update for one token text. -/
def bump (ang : Bool) (d : Nat) (s : String) : Nat :=
  if isOpenTok ang s then d + 1 else if isCloseTok ang s then d - 1 else d

/-- Models parsing a `syn::Type` (with `ang = true`, up to a `=` at
bracket depth 0) or a `syn::Expr` (with `ang = false`, up to a `;` at
bracket depth 0): consumes tokens until the first `stop` token at depth
0, which is left at the head of the rest; fails if none occurs. -/
def scanFor (stop : String) (ang : Bool) : List Tok → Nat → Except String (List Tok × List Tok)
  | [], _ => Except.error ("expected " ++ stop)
  | t :: r, d =>
    if d = 0 && t.text = stop then Except.ok ([], t :: r)
    else
      match scanFor stop ang r (bump ang d t.text) with
      | Except.ok (c, rest) => Except.ok (t :: c, rest)
      | Except.error e => Except.error e

/-- Checks that a token list is cleanly consumable by `scanFor stop ang`
from depth `d`: no `stop` token occurs at depth 0 inside it, and its net
bracket depth returns to 0 at its end. -/
def scanClear (stop : String) (ang : Bool) : List Tok → Nat → Bool
  | [], d => d == 0
  | t :: r, d =>
    !(d == 0 && t.text == stop) && scanClear stop ang r (bump ang d t.text)

/-- Models `impl Parse for LazyStatic` (lib.rs:32-49): visibility, the
`static` keyword, an identifier, `:`, a type, `=`, an initializer
expression, `;`, in that order (the `Except.bind` chain mirrors the `?`
operators); and (from `parse_macro_input!`) the whole input must be
consumed. -/
def LazyStatic.parse (input : List Tok) : Except String LazyStatic :=
  Except.bind (expectTok "static" (parseVis input).2) fun r2 =>
  Except.bind (parseIdent r2) fun pn =>
  Except.bind (expectTok ":" pn.2) fun r4 =>
  Except.bind (scanFor "=" true r4 0) fun pty =>
  if pty.1.isEmpty then Except.error "expected type" else
  Except.bind (expectTok "=" pty.2) fun r6 =>
  Except.bind (scanFor ";" false r6 0) fun pini =>
  if pini.1.isEmpty then Except.error "expected expression" else
  Except.bind (expectTok ";" pini.2) fun r8 =>
  if r8.isEmpty then
    Except.ok ⟨(parseVis input).1, pn.1, pty.1, pini.1⟩
  else Except.error "unexpected token"

/-- The item shape the parser accepts, rendered back to tokens
(separator tokens at call-site span). -/
def renderItem (ls : LazyStatic) : List Tok :=
  ls.visibility ++ [q "static", ls.name, q ":"] ++ ls.ty ++ [q "="] ++
    ls.init ++ [q ";"]

/-- Models `assert_sync` (lib.rs:91-93): `quote_spanned! {ty.span()=>
struct _AssertSync where #ty: std::marker::Sync;}` — the literal tokens
carry the type's span, the interpolated `#ty` keeps its own spans. -/
def assert_sync (ty : List Tok) : List Tok :=
  let sp := spanJoin ty
  [⟨"struct", sp⟩, ⟨"_AssertSync", sp⟩, ⟨"where", sp⟩] ++ ty ++
    [⟨":", sp⟩, ⟨"std", sp⟩, ⟨"::", sp⟩, ⟨"marker", sp⟩, ⟨"::", sp⟩,
     ⟨"Sync", sp⟩, ⟨";", sp⟩]

/-- Models `assert_sized` (lib.rs:104-106). -/
def assert_sized (ty : List Tok) : List Tok :=
  let sp := spanJoin ty
  [⟨"struct", sp⟩, ⟨"_AssertSized", sp⟩, ⟨"where", sp⟩] ++ ty ++
    [⟨":", sp⟩, ⟨"std", sp⟩, ⟨"::", sp⟩, ⟨"marker", sp⟩, ⟨"::", sp⟩,
     ⟨"Sized", sp⟩, ⟨";", sp⟩]

/-- Models `init_ptr` (lib.rs:108-110): `quote_spanned! {init.span()=>
Box::into_raw(Box::new(#init))}`. -/
def init_ptr (ini : List Tok) : List Tok :=
  let sp := spanJoin ini
  [⟨"Box", sp⟩, ⟨"::", sp⟩, ⟨"into_raw", sp⟩, ⟨"(", sp⟩, ⟨"Box", sp⟩,
   ⟨"::", sp⟩, ⟨"new", sp⟩, ⟨"(", sp⟩] ++ ini ++ [⟨")", sp⟩, ⟨")", sp⟩]

/-- Models `expanded` (lib.rs:112-132), the `quote!` template: the
`#[allow(non_camel_case_types)]` attribute, the unit struct carrying the
original visibility, and the `impl std::ops::Deref` whose `deref` body
holds the two assertions, the `ONCE` and `VALUE` statics, and the
`unsafe` one-time-initialization block. -/
def expanded (ls : LazyStatic) : List Tok :=
  [q "#", q "[", q "allow", q "(", q "non_camel_case_types", q ")", q "]"] ++
  ls.visibility ++ [q "struct", ls.name, q ";"] ++
  [q "impl", q "std", q "::", q "ops", q "::", q "Deref", q "for",
   ls.name, q "\x7b", q "type", q "Target", q "="] ++ ls.ty ++
  [q ";", q "fn", q "deref", q "(", q "&", q "self", q ")", q "->", q "&"] ++
  ls.ty ++ [q "\x7b"] ++
  assert_sync ls.ty ++ assert_sized ls.ty ++
  [q "static", q "ONCE", q ":", q "std", q "::", q "sync", q "::", q "Once",
   q "=", q "std", q "::", q "sync", q "::", q "Once", q "::", q "new",
   q "(", q ")", q ";",
   q "static", q "mut", q "VALUE", q ":", q "*", q "mut"] ++ ls.ty ++
  [q "=", q "0", q "as", q "*", q "mut"] ++ ls.ty ++
  [q ";", q "\x75nsafe", q "\x7b", q "ONCE", q ".", q "call_once", q "(",
   q "||", q "VALUE", q "="] ++
  init_ptr ls.init ++
  [q ")", q ";", q "&", q "*", q "VALUE", q "\x7d", q "\x7d", q "\x7d"]

/-- A compiler diagnostic emitted through `proc_macro_diagnostic`. -/
structure Diagnostic where
  message : String
  span : Span
deriving DecidableEq, Repr

/-- The observable result of running the attribute macro: the emitted
diagnostics and the produced token stream. -/
structure MacroOutput where
  diagnostics : List Diagnostic
  tokens : List Tok
deriving DecidableEq, Repr

/-- Models `syn::Error::to_compile_error` (reached through
`parse_macro_input!`): a `compile_error!` invocation carrying the
message. -/
def compileError (msg : String) : List Tok :=
  [q "compile_error", q "!", q "(", q msg, q ")", q ";"]

/-- The diagnostic text at lib.rs:71. -/
def noParamMsg : String := "no parameter should be at here."

/-- Models the `lazy` entry point (lib.rs:66-135): with non-empty
attribute arguments it emits the error diagnostic spanned at the
arguments and returns the empty stream; otherwise it parses the item,
turning a parse failure into `compile_error!` tokens, and on success
returns the `quote!` expansion. -/
def lazy (attr item : List Tok) : MacroOutput :=
  if attr.isEmpty then
    match LazyStatic.parse item with
    | Except.error e => ⟨[], compileError e⟩
    | Except.ok ls => ⟨[], expanded ls⟩
  else
    ⟨[⟨noParamMsg, spanJoin attr⟩], []⟩

/-! ## Runtime model of the generated `deref` body (lib.rs:119-130)

The generated body is

  `ONCE.call_once(|| VALUE = Box::into_raw(Box::new(#init))); &*VALUE`

over the statics `ONCE : std::sync::Once` and `VALUE : *mut Ty`
(initially null).  The cell state records whether `ONCE` has completed,
the pointed-to value (`none` models the null pointer), and — as
instrumentation — how many times the initializer expression has been
evaluated. -/

structure CellState (α : Type) where
  onceDone : Bool
  value : Option α
  evals : Nat
deriving DecidableEq, Repr

/-- The state before any access: `ONCE` not run, `VALUE` null. -/
def initCell {α : Type} : CellState α := ⟨false, none, 0⟩

/-- One sequential call of the generated `deref`: `call_once` runs the
closure exactly when `ONCE` has not completed, storing the freshly
evaluated initializer's value; then `&*VALUE` is returned. -/
def derefCall {α : Type} (v : α) (s : CellState α) : CellState α × Option α :=
  if s.onceDone then (s, s.value)
  else
    let s2 : CellState α := ⟨true, some v, s.evals + 1⟩
    (s2, s2.value)

/-- `n` sequential `deref` calls from the initial state, collecting the
returned values in order. -/
def runSeq {α : Type} (v : α) : Nat → CellState α × List (Option α)
  | 0 => (initCell, [])
  | n + 1 =>
    let p := runSeq v n
    ((derefCall v p.1).1, p.2 ++ [(derefCall v p.1).2])

/-! ## Interleaving model of racing first accesses

`std::sync::Once` is a three-state machine: incomplete, running (some
thread is inside `call_once` executing the closure), complete.  A thread
executing the generated `deref` goes through: `start` (about to enter
`call_once`), `active` (it won the race and is executing the closure),
`read` (past `call_once`, about to evaluate `&*VALUE`), `done r` (it
returned `r`).  A schedule is an arbitrary list of thread indices; a
blocked or finished thread's step is a stutter. -/

inductive OnceState where
  | incomplete : OnceState
  | running : OnceState
  | complete : OnceState
deriving DecidableEq, Repr

inductive TState (α : Type) where
  | start : TState α
  | active : TState α
  | read : TState α
  | done : Option α → TState α
deriving DecidableEq, Repr

structure Config (α : Type) where
  once : OnceState
  value : Option α
  evals : Nat
  threads : List (TState α)
deriving DecidableEq, Repr

/-- All `n` threads poised to make their first `deref` call on the
untouched cell. -/
def initConfig {α : Type} (n : Nat) : Config α :=
  ⟨OnceState.incomplete, none, 0, List.replicate n TState.start⟩

/-- One step of thread `tid`.  Entering `call_once` is atomic on the
`Once` state: only a thread observing `incomplete` becomes the closure
runner; a thread observing `running` blocks (stutters); a thread
observing `complete` skips the closure.  The runner's closure step
evaluates the initializer, stores the pointer and completes the `Once`. -/
def step {α : Type} (v : α) (c : Config α) (tid : Nat) : Config α :=
  match c.threads[tid]? with
  | none => c
  | some TState.start =>
    match c.once with
    | OnceState.incomplete =>
      { c with once := OnceState.running,
               threads := c.threads.set tid TState.active }
    | OnceState.running => c
    | OnceState.complete =>
      { c with threads := c.threads.set tid TState.read }
  | some TState.active =>
    { c with once := OnceState.complete, value := some v,
             evals := c.evals + 1,
             threads := c.threads.set tid TState.read }
  | some TState.read =>
    { c with threads := c.threads.set tid (TState.done c.value) }
  | some (TState.done _) => c

/-- Run a whole schedule. -/
def runSched {α : Type} (v : α) (c : Config α) : List Nat → Config α
  | [] => c
  | t :: ts => runSched v (step v c t) ts

/-- A finished thread returned a reference to the initialized value. -/
def doneOk {α : Type} [DecidableEq α] (v : α) : TState α → Bool
  | TState.done r => decide (r = some v)
  | _ => true

/-- The visibility token shapes the modelled `syn::Visibility` parser can
produce. -/
def validVis (v : List Tok) : Bool :=
  match v with
  | [] => true
  | [t] => t.text == "pub"
  | [t, o, x, c] =>
    t.text == "pub" && o.text == "(" && c.text == ")" &&
      (x.text == "crate" || x.text == "self" || x.text == "super")
  | _ => false

/-- The fixed (non-interpolated) token texts of the `quote!` template, in
order of appearance, grouped between the interpolation sites. -/
def templateTexts : List String :=
  ["#", "[", "allow", "(", "non_camel_case_types", ")", "]"] ++
  ["struct"] ++
  [";", "impl", "std", "::", "ops", "::", "Deref", "for"] ++
  ["\x7b", "type", "Target", "="] ++
  [";", "fn", "deref", "(", "&", "self", ")", "->", "&"] ++
  ["\x7b", "struct", "_AssertSync", "where"] ++
  [":", "std", "::", "marker", "::", "Sync", ";", "struct",
   "_AssertSized", "where"] ++
  [":", "std", "::", "marker", "::", "Sized", ";", "static", "ONCE",
   ":", "std", "::", "sync", "::", "Once", "=", "std", "::", "sync",
   "::", "Once", "::", "new", "(", ")", ";", "static", "mut", "VALUE",
   ":", "*", "mut"] ++
  ["=", "0", "as", "*", "mut"] ++
  [";", "\x75nsafe", "\x7b", "ONCE", ".", "call_once", "(", "||",
   "VALUE", "=", "Box", "::", "into_raw", "(", "Box", "::", "new", "("] ++
  [")", ")", ")", ";", "&", "*", "VALUE", "\x7d", "\x7d", "\x7d"]

/-- The token texts the expansion interpolates from the parsed item. -/
def interpTexts (ls : LazyStatic) : List String :=
  textsOf ls.visibility ++ [ls.name.text] ++ textsOf ls.ty ++
    textsOf ls.init

/-- The safety invariant of the `Once`-guarded initialization under
arbitrary interleavings. -/
structure OnceInv {α : Type} (v : α) (c : Config α) : Prop where
  complete_val : c.once = OnceState.complete → c.value = some v ∧ c.evals = 1
  not_complete_evals : c.once ≠ OnceState.complete → c.evals = 0
  active_running : ∀ i : Nat, c.threads[i]? = some TState.active →
    c.once = OnceState.running
  active_unique : ∀ i j : Nat, c.threads[i]? = some TState.active →
    c.threads[j]? = some TState.active → i = j
  read_complete : ∀ i : Nat, c.threads[i]? = some TState.read →
    c.once = OnceState.complete
  done_val : ∀ (i : Nat) (r : Option α), c.threads[i]? = some (TState.done r) →
    c.once = OnceState.complete ∧ r = some v

/-- A concrete well-formed input item, `static X: u32 = 7;`, used to
instantiate the theorems below. -/
def item0 : List Tok :=
  [⟨"static", Span.input 0⟩, ⟨"X", Span.input 1⟩, ⟨":", Span.input 2⟩,
   ⟨"u32", Span.input 3⟩, ⟨"=", Span.input 4⟩, ⟨"7", Span.input 5⟩,
   ⟨";", Span.input 6⟩]

/-- The parse result of `item0`. -/
def ls0 : LazyStatic :=
  ⟨[], ⟨"X", Span.input 1⟩, [⟨"u32", Span.input 3⟩], [⟨"7", Span.input 5⟩]⟩

/-- A concrete non-empty attribute argument list. -/
def attr0 : List Tok := [⟨"x", Span.input 0⟩]

/-- A concrete malformed item (no `static` keyword). -/
def badItem0 : List Tok := [⟨"fn", Span.input 0⟩]

/-! ## Parser lemmas -/

theorem parseVis_append (l : List Tok) :
    (parseVis l).1 ++ (parseVis l).2 = l := by
  unfold parseVis
  split
  · rfl
  · rename_i t rest
    split
    · split
      · split
        · simp
        · simp
      · simp
    · simp

theorem expectTok_ok {s : String} {l r : List Tok}
    (h : expectTok s l = Except.ok r) :
    ∃ t, l = t :: r ∧ t.text = s := by
  cases l with
  | nil => simp [expectTok] at h
  | cons t rest =>
    simp only [expectTok] at h
    split at h
    · rename_i ht
      injection h with h1
      exact ⟨t, by rw [h1], ht⟩
    · exact Except.noConfusion h

theorem parseIdent_ok {l : List Tok} {t : Tok} {r : List Tok}
    (h : parseIdent l = Except.ok (t, r)) :
    l = t :: r ∧ isIdentStr t.text = true := by
  cases l with
  | nil => simp [parseIdent] at h
  | cons a rest =>
    simp only [parseIdent] at h
    split at h
    · rename_i ha
      injection h with h1
      obtain ⟨h2, h3⟩ := Prod.mk.injEq .. ▸ h1
      exact ⟨by rw [h2, h3], h2 ▸ ha⟩
    · exact Except.noConfusion h

theorem scanFor_ok {stop : String} {ang : Bool} {l : List Tok} {d : Nat}
    {c r : List Tok} (h : scanFor stop ang l d = Except.ok (c, r)) :
    l = c ++ r ∧ ∃ t r2, r = t :: r2 ∧ t.text = stop := by
  induction l generalizing d c r with
  | nil => simp [scanFor] at h
  | cons t rest ih =>
    rw [scanFor] at h
    split at h
    · rename_i hcond
      injection h with h1
      obtain ⟨h2, h3⟩ := Prod.mk.injEq .. ▸ h1
      simp only [Bool.and_eq_true, decide_eq_true_eq] at hcond
      refine ⟨by simp [← h2, ← h3], t, rest, by rw [← h3], hcond.2⟩
    · rename_i hcond
      cases hrec : scanFor stop ang rest (bump ang d t.text) with
      | error e => rw [hrec] at h; exact Except.noConfusion h
      | ok p =>
        obtain ⟨c2, r2⟩ := p
        rw [hrec] at h
        injection h with h1
        obtain ⟨h2, h3⟩ := Prod.mk.injEq .. ▸ h1
        subst h3
        obtain ⟨hl, tk, rr, hr, ht⟩ := ih hrec
        refine ⟨?_, tk, rr, hr, ht⟩
        rw [← h2, hl]
        simp

theorem expectTok_cons {s : String} {t : Tok} (r : List Tok)
    (h : t.text = s) : expectTok s (t :: r) = Except.ok r := by
  simp [expectTok, h]

theorem parseIdent_cons {t : Tok} (r : List Tok)
    (h : isIdentStr t.text = true) :
    parseIdent (t :: r) = Except.ok (t, r) := by
  simp [parseIdent, h]

theorem scanFor_clear {stop : String} {ang : Bool} {c : List Tok} :
    ∀ d, scanClear stop ang c d = true → ∀ {t : Tok} (r : List Tok),
      t.text = stop →
      scanFor stop ang (c ++ t :: r) d = Except.ok (c, t :: r) := by
  induction c with
  | nil =>
    intro d hd t r ht
    simp only [scanClear, beq_iff_eq] at hd
    simp [scanFor, hd, ht]
  | cons a c2 ih =>
    intro d hd t r ht
    rw [scanClear] at hd
    simp only [Bool.and_eq_true, Bool.not_eq_true', Bool.and_eq_false_iff,
      beq_iff_eq, beq_eq_false_iff_ne] at hd
    rw [List.cons_append, scanFor]
    have hcond : (decide (d = 0) && decide (a.text = stop)) = false := by
      rcases hd.1 with h | h
      · simp [h]
      · simp [h]
    rw [hcond]
    simp only [Bool.false_eq_true, if_false]
    rw [ih (bump ang d a.text) hd.2 r ht]

theorem parseVis_valid {vv : List Tok} (hv : validVis vv = true) {t : Tok}
    (ht : t.text = "static") (r : List Tok) :
    parseVis (vv ++ t :: r) = (vv, t :: r) := by
  rcases vv with _ | ⟨p, vv2⟩
  · simp [parseVis, ht]
  rcases vv2 with _ | ⟨o, vv3⟩
  · simp only [validVis, beq_iff_eq] at hv
    rcases r with _ | ⟨y, _ | ⟨z, r3⟩⟩ <;> simp [parseVis, hv, ht]
  rcases vv3 with _ | ⟨x, vv4⟩
  · simp [validVis] at hv
  rcases vv4 with _ | ⟨c, vv5⟩
  · simp [validVis] at hv
  rcases vv5 with _ | ⟨e2, vv6⟩
  · simp only [validVis, Bool.and_eq_true, Bool.or_eq_true, beq_iff_eq] at hv
    obtain ⟨⟨⟨hp, ho⟩, hc⟩, hx⟩ := hv
    rcases hx with (hx | hx) | hx <;> simp [parseVis, hp, ho, hc, hx]
  · simp [validVis] at hv

/-- Soundness of the item parser: every accepted token stream has, at the
text level, exactly the shape
`$Visibility static $NAME : $Type = $EXPRESS ;`, with the parsed
components appearing in that order. -/
theorem parse_shape {item : List Tok} {ls : LazyStatic}
    (h : LazyStatic.parse item = Except.ok ls) :
    textsOf item = textsOf ls.visibility ++
      ["static", ls.name.text, ":"] ++ textsOf ls.ty ++ ["="] ++
      textsOf ls.init ++ [";"] := by
  unfold LazyStatic.parse at h
  cases h2 : expectTok "static" (parseVis item).2 with
  | error e => rw [h2] at h; simp [Except.bind] at h
  | ok r2 =>
  rw [h2] at h
  simp only [Except.bind] at h
  cases h3 : parseIdent r2 with
  | error e => rw [h3] at h; simp [Except.bind] at h
  | ok pn =>
  obtain ⟨name, r3⟩ := pn
  rw [h3] at h
  simp only [Except.bind] at h
  cases h4 : expectTok ":" r3 with
  | error e => rw [h4] at h; simp [Except.bind] at h
  | ok r4 =>
  rw [h4] at h
  simp only [Except.bind] at h
  cases h5 : scanFor "=" true r4 0 with
  | error e => rw [h5] at h; simp [Except.bind] at h
  | ok pty =>
  obtain ⟨ty, r5⟩ := pty
  rw [h5] at h
  simp only [Except.bind] at h
  by_cases hty : ty.isEmpty
  · rw [if_pos hty] at h; exact Except.noConfusion h
  rw [if_neg hty] at h
  cases h6 : expectTok "=" r5 with
  | error e => rw [h6] at h; simp [Except.bind] at h
  | ok r6 =>
  rw [h6] at h
  simp only [Except.bind] at h
  cases h7 : scanFor ";" false r6 0 with
  | error e => rw [h7] at h; simp [Except.bind] at h
  | ok pini =>
  obtain ⟨ini, r7⟩ := pini
  rw [h7] at h
  simp only [Except.bind] at h
  by_cases hini : ini.isEmpty
  · rw [if_pos hini] at h; exact Except.noConfusion h
  rw [if_neg hini] at h
  cases h8 : expectTok ";" r7 with
  | error e => rw [h8] at h; simp [Except.bind] at h
  | ok r8 =>
  rw [h8] at h
  simp only [Except.bind] at h
  by_cases hr8 : r8.isEmpty
  · rw [if_pos hr8] at h
    injection h with hls
    have hitem : item = (parseVis item).1 ++ (parseVis item).2 :=
      (parseVis_append item).symm
    obtain ⟨tS, hr1, htS⟩ := expectTok_ok h2
    obtain ⟨hr2, hid⟩ := parseIdent_ok h3
    obtain ⟨tC, hr3, htC⟩ := expectTok_ok h4
    obtain ⟨hr4, tE, r5x, hr5, htE⟩ := scanFor_ok h5
    obtain ⟨tE2, hr5b, htE2⟩ := expectTok_ok h6
    obtain ⟨hr6, tSm, r7x, hr7, htSm⟩ := scanFor_ok h7
    obtain ⟨tS2, hr7b, htS2⟩ := expectTok_ok h8
    have hr8nil : r8 = [] := List.isEmpty_iff.mp hr8
    subst hls
    have hfull := hitem
    rw [hr1, hr2, hr3, hr4, hr5b, hr6, hr7b, hr8nil] at hfull
    simp only [textsOf]
    conv_lhs => rw [hfull]
    simp [htS, htC, htE2, htS2]
  · rw [if_neg hr8] at h; exact Except.noConfusion h

/-- Completeness of the item parser: every well-formed instance of the
grammar `$Visibility static $NAME : $Type = $EXPRESS ;` is accepted and
parsed into its components. -/
theorem parse_render (ls : LazyStatic)
    (h1 : validVis ls.visibility = true)
    (h2 : isIdentStr ls.name.text = true)
    (h3 : ls.ty ≠ [])
    (h4 : scanClear "=" true ls.ty 0 = true)
    (h5 : ls.init ≠ [])
    (h6 : scanClear ";" false ls.init 0 = true) :
    LazyStatic.parse (renderItem ls) = Except.ok ls := by
  have harr : renderItem ls =
      ls.visibility ++ (q "static") :: (ls.name :: (q ":") ::
        (ls.ty ++ (q "=") :: (ls.init ++ (q ";") :: []))) := by
    simp [renderItem]
  have hpv : parseVis (renderItem ls) =
      (ls.visibility, (q "static") :: (ls.name :: (q ":") ::
        (ls.ty ++ (q "=") :: (ls.init ++ (q ";") :: [])))) := by
    rw [harr]; exact parseVis_valid h1 rfl _
  unfold LazyStatic.parse
  rw [hpv]
  simp only []
  rw [expectTok_cons _ (show (q "static").text = "static" from rfl)]
  simp only [Except.bind]
  rw [parseIdent_cons _ h2]
  simp only [Except.bind]
  rw [expectTok_cons _ (show (q ":").text = ":" from rfl)]
  simp only [Except.bind]
  rw [scanFor_clear 0 h4 _ (show (q "=").text = "=" from rfl)]
  simp only [Except.bind]
  rw [if_neg (by simp [List.isEmpty_iff, h3])]
  rw [expectTok_cons _ (show (q "=").text = "=" from rfl)]
  simp only [Except.bind]
  rw [scanFor_clear 0 h6 _ (show (q ";").text = ";" from rfl)]
  simp only [Except.bind]
  rw [if_neg (by simp [List.isEmpty_iff, h5])]
  rw [expectTok_cons _ (show (q ";").text = ";" from rfl)]
  simp only [Except.bind]
  simp

/-! ## The expansion at the text level -/

/-- The full text-level shape of the `quote!` expansion (lib.rs:112-132):
the `allow` attribute, the unit struct with the original visibility and
name, and the `Deref` impl whose `deref` body holds the two assertions,
the `ONCE`/`VALUE` statics and the one-time initialization. -/
theorem expanded_texts (ls : LazyStatic) :
    textsOf (expanded ls) =
      ["#", "[", "allow", "(", "non_camel_case_types", ")", "]"] ++
      textsOf ls.visibility ++
      ["struct"] ++ [ls.name.text] ++
      [";", "impl", "std", "::", "ops", "::", "Deref", "for"] ++
      [ls.name.text] ++
      ["\x7b", "type", "Target", "="] ++ textsOf ls.ty ++
      [";", "fn", "deref", "(", "&", "self", ")", "->", "&"] ++
      textsOf ls.ty ++
      ["\x7b", "struct", "_AssertSync", "where"] ++ textsOf ls.ty ++
      [":", "std", "::", "marker", "::", "Sync", ";", "struct",
       "_AssertSized", "where"] ++ textsOf ls.ty ++
      [":", "std", "::", "marker", "::", "Sized", ";", "static", "ONCE",
       ":", "std", "::", "sync", "::", "Once", "=", "std", "::", "sync",
       "::", "Once", "::", "new", "(", ")", ";", "static", "mut",
       "VALUE", ":", "*", "mut"] ++ textsOf ls.ty ++
      ["=", "0", "as", "*", "mut"] ++ textsOf ls.ty ++
      [";", "\x75nsafe", "\x7b", "ONCE", ".", "call_once", "(", "||",
       "VALUE", "=", "Box", "::", "into_raw", "(", "Box", "::", "new",
       "("] ++ textsOf ls.init ++
      [")", ")", ")", ";", "&", "*", "VALUE", "\x7d", "\x7d", "\x7d"] := by
  simp [expanded, assert_sync, assert_sized, init_ptr, textsOf, q]

/-- Every token text of the expansion comes either from the fixed
template or from an interpolated fragment of the parsed item. -/
theorem expanded_texts_cases (ls : LazyStatic) {s : String}
    (hs : s ∈ textsOf (expanded ls)) :
    s ∈ templateTexts ∨ s ∈ interpTexts ls := by
  rw [expanded_texts] at hs
  simp only [List.append_assoc, List.mem_append] at hs
  simp only [templateTexts, interpTexts, List.append_assoc,
    List.mem_append]
  tauto

/-! ## Sequential one-time initialization -/

theorem runSeq_state {α : Type} (v : α) (n : Nat) (h : 1 ≤ n) :
    (runSeq v n).1 = ⟨true, some v, 1⟩ ∧
    (runSeq v n).2 = List.replicate n (some v) := by
  induction n with
  | zero => omega
  | succ m ih =>
    cases Nat.eq_zero_or_pos m with
    | inl h0 =>
      subst h0
      constructor <;> simp [runSeq, derefCall, initCell]
    | inr hm =>
      obtain ⟨hs, hr⟩ := ih hm
      constructor
      · simp [runSeq, hs, derefCall]
      · simp [runSeq, hs, hr, derefCall, List.replicate_succ']

/-! ## Invariant of the interleaving semantics -/

theorem onceInv_init {α : Type} (v : α) (n : Nat) : OnceInv v (initConfig n) := by
  refine ⟨?_, ?_, ?_, ?_, ?_, ?_⟩ <;>
    simp [initConfig, List.getElem?_replicate]

theorem onceInv_step {α : Type} (v : α) {c : Config α} (tid : Nat)
    (h : OnceInv v c) : OnceInv v (step v c tid) := by
  obtain ⟨h1, h2, h3, h4, h5, h6⟩ := h
  unfold step
  split
  · exact ⟨h1, h2, h3, h4, h5, h6⟩
  case _ ht =>
    -- thread at `start`
    split
    case _ ho =>
      -- `Once` incomplete: become the runner
      refine ⟨?_, ?_, ?_, ?_, ?_, ?_⟩
      · intro hco; simp at hco
      · intro _; exact h2 (by rw [ho]; simp)
      · intro i _; rfl
      · intro i j hi hj
        by_cases hit : tid = i
        · by_cases hjt : tid = j
          · omega
          · rw [List.getElem?_set_ne hjt] at hj
            have := h3 j hj; rw [ho] at this; exact OnceState.noConfusion this
        · rw [List.getElem?_set_ne hit] at hi
          have := h3 i hi; rw [ho] at this; exact OnceState.noConfusion this
      · intro i hi
        by_cases hit : tid = i
        · subst hit
          rw [List.getElem?_set] at hi
          simp at hi
        · rw [List.getElem?_set_ne hit] at hi
          have := h5 i hi; rw [ho] at this; exact OnceState.noConfusion this
      · intro i r hi
        by_cases hit : tid = i
        · subst hit
          rw [List.getElem?_set] at hi
          simp at hi
        · rw [List.getElem?_set_ne hit] at hi
          have := (h6 i r hi).1; rw [ho] at this
          exact OnceState.noConfusion this
    case _ ho =>
      -- `Once` running: blocked, stutter
      exact ⟨h1, h2, h3, h4, h5, h6⟩
    case _ ho =>
      -- `Once` complete: skip the closure
      refine ⟨?_, ?_, ?_, ?_, ?_, ?_⟩
      · intro _; exact h1 ho
      · intro hne; exact absurd ho hne
      · intro i hi
        by_cases hit : tid = i
        · subst hit
          rw [List.getElem?_set] at hi
          simp at hi
        · rw [List.getElem?_set_ne hit] at hi
          exact h3 i hi
      · intro i j hi hj
        by_cases hit : tid = i
        · subst hit
          rw [List.getElem?_set] at hi
          simp at hi
        · by_cases hjt : tid = j
          · subst hjt
            rw [List.getElem?_set] at hj
            simp at hj
          · rw [List.getElem?_set_ne hit] at hi
            rw [List.getElem?_set_ne hjt] at hj
            exact h4 i j hi hj
      · intro i _; exact ho
      · intro i r hi
        by_cases hit : tid = i
        · subst hit
          rw [List.getElem?_set] at hi
          simp at hi
        · rw [List.getElem?_set_ne hit] at hi
          exact ⟨ho, (h6 i r hi).2⟩
  case _ ht =>
    -- the runner executes the closure: evaluate, store, complete
    have hco : c.once = OnceState.running := h3 tid ht
    refine ⟨?_, ?_, ?_, ?_, ?_, ?_⟩
    · intro _
      refine ⟨rfl, ?_⟩
      have : c.evals = 0 := h2 (by rw [hco]; simp)
      simp [this]
    · intro hne; exact absurd rfl hne
    · intro i hi
      by_cases hit : tid = i
      · subst hit
        rw [List.getElem?_set] at hi
        simp at hi
      · rw [List.getElem?_set_ne hit] at hi
        exact absurd (h4 i tid hi ht).symm hit
    · intro i j hi hj
      by_cases hit : tid = i
      · subst hit
        rw [List.getElem?_set] at hi
        simp at hi
      · rw [List.getElem?_set_ne hit] at hi
        exact absurd (h4 i tid hi ht).symm hit
    · intro i _; rfl
    · intro i r hi
      by_cases hit : tid = i
      · subst hit
        rw [List.getElem?_set] at hi
        simp at hi
      · rw [List.getElem?_set_ne hit] at hi
        have := (h6 i r hi).1; rw [hco] at this
        exact OnceState.noConfusion this
  case _ ht =>
    -- a thread past `call_once` reads `VALUE`
    have hco : c.once = OnceState.complete := h5 tid ht
    refine ⟨?_, ?_, ?_, ?_, ?_, ?_⟩
    · intro _; exact h1 hco
    · intro hne; exact absurd hco hne
    · intro i hi
      by_cases hit : tid = i
      · subst hit
        rw [List.getElem?_set] at hi
        simp at hi
      · rw [List.getElem?_set_ne hit] at hi
        exact h3 i hi
    · intro i j hi hj
      by_cases hit : tid = i
      · subst hit
        rw [List.getElem?_set] at hi
        simp at hi
      · by_cases hjt : tid = j
        · subst hjt
          rw [List.getElem?_set] at hj
          simp at hj
        · rw [List.getElem?_set_ne hit] at hi
          rw [List.getElem?_set_ne hjt] at hj
          exact h4 i j hi hj
    · intro i hi
      by_cases hit : tid = i
      · subst hit
        rw [List.getElem?_set] at hi
        simp at hi
      · rw [List.getElem?_set_ne hit] at hi
        exact h5 i hi
    · intro i r hi
      by_cases hit : tid = i
      · subst hit
        rw [List.getElem?_set] at hi
        simp at hi
        exact ⟨hco, hi.2 ▸ (h1 hco).1⟩
      · rw [List.getElem?_set_ne hit] at hi
        exact h6 i r hi
  case _ ht =>
    exact ⟨h1, h2, h3, h4, h5, h6⟩

theorem onceInv_runSched {α : Type} (v : α) {c : Config α} (h : OnceInv v c) :
    ∀ sched : List Nat, OnceInv v (runSched v c sched) := by
  intro sched
  induction sched generalizing c with
  | nil => exact h
  | cons t ts ih => exact ih (onceInv_step v t h)

/-! ## Dispatch of the `lazy` entry point -/

theorem lazy_attr_case (attr item : List Tok) (h : attr ≠ []) :
    lazy attr item = ⟨[⟨noParamMsg, spanJoin attr⟩], []⟩ := by
  unfold lazy
  rw [if_neg (by simpa [List.isEmpty_iff] using h)]

theorem lazy_err_case (item : List Tok) (e : String)
    (h : LazyStatic.parse item = Except.error e) :
    lazy [] item = ⟨[], compileError e⟩ := by
  unfold lazy
  rw [if_pos (show ([] : List Tok).isEmpty = true from rfl), h]

theorem lazy_ok_case (item : List Tok) (ls : LazyStatic)
    (h : LazyStatic.parse item = Except.ok ls) :
    lazy [] item = ⟨[], expanded ls⟩ := by
  unfold lazy
  rw [if_pos (show ([] : List Tok).isEmpty = true from rfl), h]

/-! ## Claims -/

/-- C1: for every input item of the form
`$Visibility static $NAME: $Type = $EXPR;` (an item the parser accepts),
the `lazy` macro with empty attribute arguments emits no diagnostic and
rewrites the item into a unit struct named `$NAME` carrying the original
visibility together with an `impl std::ops::Deref` for that struct whose
`Target` is `$Type` and whose `deref` body performs the `Once`-guarded
one-time initialization and returns `&*VALUE`. -/
theorem lazy_rewrites_to_marker_struct_and_deref
    (item : List Tok) (ls : LazyStatic)
    (h : LazyStatic.parse item = Except.ok ls) :
    lazy [] item = ⟨[], expanded ls⟩ ∧
    textsOf (expanded ls) =
      ["#", "[", "allow", "(", "non_camel_case_types", ")", "]"] ++
      textsOf ls.visibility ++
      ["struct"] ++ [ls.name.text] ++
      [";", "impl", "std", "::", "ops", "::", "Deref", "for"] ++
      [ls.name.text] ++
      ["\x7b", "type", "Target", "="] ++ textsOf ls.ty ++
      [";", "fn", "deref", "(", "&", "self", ")", "->", "&"] ++
      textsOf ls.ty ++
      ["\x7b", "struct", "_AssertSync", "where"] ++ textsOf ls.ty ++
      [":", "std", "::", "marker", "::", "Sync", ";", "struct",
       "_AssertSized", "where"] ++ textsOf ls.ty ++
      [":", "std", "::", "marker", "::", "Sized", ";", "static", "ONCE",
       ":", "std", "::", "sync", "::", "Once", "=", "std", "::", "sync",
       "::", "Once", "::", "new", "(", ")", ";", "static", "mut",
       "VALUE", ":", "*", "mut"] ++ textsOf ls.ty ++
      ["=", "0", "as", "*", "mut"] ++ textsOf ls.ty ++
      [";", "\x75nsafe", "\x7b", "ONCE", ".", "call_once", "(", "||",
       "VALUE", "=", "Box", "::", "into_raw", "(", "Box", "::", "new",
       "("] ++ textsOf ls.init ++
      [")", ")", ")", ";", "&", "*", "VALUE", "\x7d", "\x7d", "\x7d"] :=
  ⟨lazy_ok_case item ls h, expanded_texts ls⟩

/-- Witness for C1 at the concrete item `static X: u32 = 7;`. -/
theorem lazy_rewrites_to_marker_struct_and_deref_witness :
    LazyStatic.parse item0 = Except.ok ls0 ∧
    lazy [] item0 = ⟨[], expanded ls0⟩ :=
  ⟨rfl, (lazy_rewrites_to_marker_struct_and_deref item0 ls0 rfl).1⟩

/-- C2: in any sequential execution of `n ≥ 1` calls of the generated
`deref`, the initializer is evaluated exactly once, the stored value is
the initializer's value, and every call (first and subsequent) returns
that same value. -/
theorem initializer_evaluated_once_sequentially {α : Type} (v : α)
    (n : Nat) (h : 1 ≤ n) :
    (runSeq v n).1.evals = 1 ∧ (runSeq v n).1.value = some v ∧
    (runSeq v n).2 = List.replicate n (some v) := by
  obtain ⟨hs, hr⟩ := runSeq_state v n h
  rw [hs, hr]
  exact ⟨rfl, rfl, rfl⟩

/-- Witness for C2: three sequential calls with initializer value `7`. -/
theorem initializer_evaluated_once_sequentially_witness :
    1 ≤ 3 ∧
    ((runSeq 7 3).1.evals = 1 ∧ (runSeq 7 3).1.value = some 7 ∧
      (runSeq 7 3).2 = List.replicate 3 (some 7)) :=
  ⟨by decide, initializer_evaluated_once_sequentially 7 3 (by decide)⟩

/-- C3: under every interleaving of any number of racing threads
performing their first `deref` calls, the `Once` guard lets the
initializer be evaluated at most once process-wide, and every thread
that finished returned the initialized value. -/
theorem once_guard_at_most_one_eval {α : Type} [DecidableEq α] (v : α)
    (n : Nat) (sched : List Nat) :
    (runSched v (initConfig n) sched).evals ≤ 1 ∧
    (runSched v (initConfig n) sched).threads.all (doneOk v) = true := by
  obtain ⟨h1, h2, h3, h4, h5, h6⟩ := onceInv_runSched v (onceInv_init v n) sched
  constructor
  · by_cases hc : (runSched v (initConfig n) sched).once = OnceState.complete
    · simp [(h1 hc).2]
    · simp [h2 hc]
  · rw [List.all_eq_true]
    intro t hmem
    obtain ⟨i, hi⟩ := List.mem_iff_getElem?.mp hmem
    cases t with
    | done r => simpa [doneOk] using (h6 i r hi).2
    | start => rfl
    | active => rfl
    | read => rfl

/-- C4: with non-empty attribute arguments the macro emits the
diagnostic `no parameter should be at here.` spanned at the argument
tokens and produces the empty token stream, whatever the item is. -/
theorem nonempty_attr_rejected (attr item : List Tok) (h : attr ≠ []) :
    lazy attr item = ⟨[⟨noParamMsg, spanJoin attr⟩], []⟩ :=
  lazy_attr_case attr item h

/-- Witness for C4 at the concrete arguments `x` and item
`static X: u32 = 7;`. -/
theorem nonempty_attr_rejected_witness :
    attr0 ≠ [] ∧
    lazy attr0 item0 = ⟨[⟨noParamMsg, spanJoin attr0⟩], []⟩ :=
  ⟨by decide, nonempty_attr_rejected attr0 item0 (by decide)⟩

/-- C10: with non-empty attribute arguments the produced token stream is
empty (the annotated declaration is dropped) and the output does not
depend on the item at all — in particular the item is never parsed. -/
theorem nonempty_attr_drops_item (attr item item2 : List Tok)
    (h : attr ≠ []) :
    (lazy attr item).tokens = [] ∧ lazy attr item = lazy attr item2 := by
  rw [lazy_attr_case attr item h, lazy_attr_case attr item2 h]
  exact ⟨rfl, rfl⟩

/-- Witness for C10: the well-formed and the malformed item give the
same (empty) output under a non-empty attribute. -/
theorem nonempty_attr_drops_item_witness :
    attr0 ≠ [] ∧
    ((lazy attr0 item0).tokens = [] ∧
      lazy attr0 item0 = lazy attr0 badItem0) :=
  ⟨by decide, nonempty_attr_drops_item attr0 item0 badItem0 (by decide)⟩

/-- C5: the expansion contains, adjacent inside the `deref` body, the
two generated assertions `struct _AssertSync where $Type:
std::marker::Sync;` and `struct _AssertSized where $Type:
std::marker::Sized;`, and every template token of them carries the span
of the declared type. -/
theorem expansion_contains_spanned_assertions (ls : LazyStatic) :
    ∃ pre suf : List Tok,
      expanded ls = pre ++ assert_sync ls.ty ++ assert_sized ls.ty ++ suf ∧
      assert_sync ls.ty =
        [⟨"struct", spanJoin ls.ty⟩, ⟨"_AssertSync", spanJoin ls.ty⟩,
         ⟨"where", spanJoin ls.ty⟩] ++ ls.ty ++
        [⟨":", spanJoin ls.ty⟩, ⟨"std", spanJoin ls.ty⟩,
         ⟨"::", spanJoin ls.ty⟩, ⟨"marker", spanJoin ls.ty⟩,
         ⟨"::", spanJoin ls.ty⟩, ⟨"Sync", spanJoin ls.ty⟩,
         ⟨";", spanJoin ls.ty⟩] ∧
      assert_sized ls.ty =
        [⟨"struct", spanJoin ls.ty⟩, ⟨"_AssertSized", spanJoin ls.ty⟩,
         ⟨"where", spanJoin ls.ty⟩] ++ ls.ty ++
        [⟨":", spanJoin ls.ty⟩, ⟨"std", spanJoin ls.ty⟩,
         ⟨"::", spanJoin ls.ty⟩, ⟨"marker", spanJoin ls.ty⟩,
         ⟨"::", spanJoin ls.ty⟩, ⟨"Sized", spanJoin ls.ty⟩,
         ⟨";", spanJoin ls.ty⟩] := by
  refine ⟨[q "#", q "[", q "allow", q "(", q "non_camel_case_types",
      q ")", q "]"] ++ ls.visibility ++ [q "struct", ls.name, q ";"] ++
      [q "impl", q "std", q "::", q "ops", q "::", q "Deref", q "for",
       ls.name, q "\x7b", q "type", q "Target", q "="] ++ ls.ty ++
      [q ";", q "fn", q "deref", q "(", q "&", q "self", q ")", q "->",
       q "&"] ++ ls.ty ++ [q "\x7b"],
    [q "static", q "ONCE", q ":", q "std", q "::", q "sync", q "::",
     q "Once", q "=", q "std", q "::", q "sync", q "::", q "Once",
     q "::", q "new", q "(", q ")", q ";", q "static", q "mut",
     q "VALUE", q ":", q "*", q "mut"] ++ ls.ty ++
    [q "=", q "0", q "as", q "*", q "mut"] ++ ls.ty ++
    [q ";", q "\x75nsafe", q "\x7b", q "ONCE", q ".", q "call_once",
     q "(", q "||", q "VALUE", q "="] ++ init_ptr ls.init ++
    [q ")", q ";", q "&", q "*", q "VALUE", q "\x7d", q "\x7d",
     q "\x7d"], ?_, ?_, ?_⟩
  · simp [expanded, List.append_assoc]
  · simp [assert_sync]
  · simp [assert_sized]

/-- C6: the macro accepts exactly the grammar
`$Visibility static $NAME: $Type = $EXPRESS;`: a parse failure makes the
macro produce a `compile_error!` rejection instead of an expansion;
every accepted stream has, in order, visibility, `static`, identifier,
`:`, type, `=`, initializer and trailing `;`; and every well-formed
stream of that shape is accepted. -/
theorem grammar_exactly_static_items :
    (∀ (item : List Tok) (e : String),
      LazyStatic.parse item = Except.error e →
      lazy [] item = ⟨[], compileError e⟩) ∧
    (∀ (item : List Tok) (ls : LazyStatic),
      LazyStatic.parse item = Except.ok ls →
      textsOf item = textsOf ls.visibility ++
        ["static", ls.name.text, ":"] ++ textsOf ls.ty ++ ["="] ++
        textsOf ls.init ++ [";"]) ∧
    (∀ ls : LazyStatic, validVis ls.visibility = true →
      isIdentStr ls.name.text = true → ls.ty ≠ [] →
      scanClear "=" true ls.ty 0 = true → ls.init ≠ [] →
      scanClear ";" false ls.init 0 = true →
      LazyStatic.parse (renderItem ls) = Except.ok ls) :=
  ⟨lazy_err_case, fun _ _ h => parse_shape h, parse_render⟩

/-- Witness for C6: the malformed item `fn` is rejected, the accepted
item `static X: u32 = 7;` has the grammar shape, and its rendering is
accepted. -/
theorem grammar_exactly_static_items_witness :
    lazy [] badItem0 = ⟨[], compileError "expected static"⟩ ∧
    textsOf item0 = textsOf ls0.visibility ++
      ["static", ls0.name.text, ":"] ++ textsOf ls0.ty ++ ["="] ++
      textsOf ls0.init ++ [";"] ∧
    LazyStatic.parse (renderItem ls0) = Except.ok ls0 :=
  ⟨grammar_exactly_static_items.1 badItem0 "expected static" rfl,
   grammar_exactly_static_items.2.1 item0 ls0 rfl,
   grammar_exactly_static_items.2.2 ls0 (by decide) (by decide)
     (by decide) (by decide) (by decide) (by decide)⟩

/-- C7: the macro is total — every input yields an output, which is the
attribute-arguments diagnostic, a `compile_error!` rejection, or the
expansion — and the fixed template of the generated code contains no
runtime error construct (no panic, unwrap, expect or error return). -/
theorem lazy_total_no_runtime_error :
    (∀ attr item : List Tok, attr ≠ [] →
      lazy attr item = ⟨[⟨noParamMsg, spanJoin attr⟩], []⟩) ∧
    (∀ item : List Tok,
      (∃ e, LazyStatic.parse item = Except.error e ∧
        lazy [] item = ⟨[], compileError e⟩) ∨
      (∃ ls, LazyStatic.parse item = Except.ok ls ∧
        lazy [] item = ⟨[], expanded ls⟩)) ∧
    (∀ (ls : LazyStatic) (s : String), s ∈ textsOf (expanded ls) →
      s ∉ interpTexts ls → s ∈ templateTexts) ∧
    (∀ s ∈ templateTexts,
      s ∉ (["panic", "unwrap", "expect", "Err", "return", "?",
            "unreachable", "todo"] : List String)) := by
  refine ⟨lazy_attr_case, ?_, ?_, by decide⟩
  · intro item
    cases hp : LazyStatic.parse item with
    | error e => exact Or.inl ⟨e, rfl, lazy_err_case item e hp⟩
    | ok ls => exact Or.inr ⟨ls, rfl, lazy_ok_case item ls hp⟩
  · intro ls s hs hns
    rcases expanded_texts_cases ls hs with h | h
    · exact h
    · exact absurd h hns

/-- Witness for C7 at the concrete fixtures. -/
theorem lazy_total_no_runtime_error_witness :
    lazy attr0 item0 = ⟨[⟨noParamMsg, spanJoin attr0⟩], []⟩ ∧
    ((∃ e, LazyStatic.parse item0 = Except.error e ∧
        lazy [] item0 = ⟨[], compileError e⟩) ∨
      (∃ ls, LazyStatic.parse item0 = Except.ok ls ∧
        lazy [] item0 = ⟨[], expanded ls⟩)) ∧
    "ONCE" ∈ templateTexts :=
  ⟨lazy_total_no_runtime_error.1 attr0 item0 (by decide),
   lazy_total_no_runtime_error.2.1 item0,
   lazy_total_no_runtime_error.2.2.1 ls0 "ONCE" (by decide) (by decide)⟩

/-- C8: the expansion declares exactly one function, `deref` (the sole
accessor of the singleton), and the expansion is lazily initializing:
before any `deref` call the cell is untouched — nothing has been
evaluated and `VALUE` is still null. -/
theorem deref_sole_accessor_and_lazy {α : Type} (v : α) (ls : LazyStatic)
    (h1 : "fn" ∉ textsOf ls.visibility) (h2 : ls.name.text ≠ "fn")
    (h3 : "fn" ∉ textsOf ls.ty) (h4 : "fn" ∉ textsOf ls.init) :
    (textsOf (expanded ls)).count "fn" = 1 ∧
    (∃ pre suf : List String,
      textsOf (expanded ls) = pre ++ ["fn", "deref"] ++ suf) ∧
    (runSeq v 0).1 = initCell ∧
    (initCell : CellState α).evals = 0 ∧
    (initCell : CellState α).value = none := by
  refine ⟨?_, ?_, rfl, rfl, rfl⟩
  · rw [expanded_texts]
    simp only [List.count_append, List.count_eq_zero.mpr h1,
      List.count_eq_zero.mpr h3, List.count_eq_zero.mpr h4,
      List.count_eq_zero.mpr
        (show "fn" ∉ [ls.name.text] by simpa using Ne.symm h2)]
    decide
  · refine ⟨["#", "[", "allow", "(", "non_camel_case_types", ")",
        "]"] ++ textsOf ls.visibility ++ ["struct"] ++ [ls.name.text] ++
        [";", "impl", "std", "::", "ops", "::", "Deref", "for"] ++
        [ls.name.text] ++ ["\x7b", "type", "Target", "="] ++
        textsOf ls.ty ++ [";"],
      ["(", "&", "self", ")", "->", "&"] ++ textsOf ls.ty ++
        ["\x7b", "struct", "_AssertSync", "where"] ++ textsOf ls.ty ++
        [":", "std", "::", "marker", "::", "Sync", ";", "struct",
         "_AssertSized", "where"] ++ textsOf ls.ty ++
        [":", "std", "::", "marker", "::", "Sized", ";", "static",
         "ONCE", ":", "std", "::", "sync", "::", "Once", "=", "std",
         "::", "sync", "::", "Once", "::", "new", "(", ")", ";",
         "static", "mut", "VALUE", ":", "*", "mut"] ++ textsOf ls.ty ++
        ["=", "0", "as", "*", "mut"] ++ textsOf ls.ty ++
        [";", "\x75nsafe", "\x7b", "ONCE", ".", "call_once", "(", "||",
         "VALUE", "=", "Box", "::", "into_raw", "(", "Box", "::",
         "new", "("] ++ textsOf ls.init ++
        [")", ")", ")", ";", "&", "*", "VALUE", "\x7d", "\x7d",
         "\x7d"], ?_⟩
    rw [expanded_texts]
    simp [List.append_assoc]

/-- Witness for C8 at the concrete parse of `static X: u32 = 7;`. -/
theorem deref_sole_accessor_and_lazy_witness :
    ("fn" ∉ textsOf ls0.visibility ∧ ls0.name.text ≠ "fn" ∧
      "fn" ∉ textsOf ls0.ty ∧ "fn" ∉ textsOf ls0.init) ∧
    (textsOf (expanded ls0)).count "fn" = 1 :=
  ⟨⟨by decide, by decide, by decide, by decide⟩,
   (deref_sole_accessor_and_lazy 0 ls0 (by decide) (by decide)
     (by decide) (by decide)).1⟩

/-- C9: the initializer expression is interpolated at exactly one site
of the template — inside `Box::into_raw(Box::new(...))`, directly after
the head `ONCE.call_once(|| VALUE =` of the one-time-initialization
closure — so its tokens occur once and nowhere else: the surrounding
token lists are independent of the initializer. -/
theorem init_interpolated_once (vis : List Tok) (name : Tok)
    (ty : List Tok) :
    ∃ pre pre2 suf : List Tok,
      pre = pre2 ++ [q "ONCE", q ".", q "call_once", q "(", q "||",
        q "VALUE", q "="] ∧
      (∀ ini : List Tok,
        expanded ⟨vis, name, ty, ini⟩ = pre ++ init_ptr ini ++ suf) ∧
      (∀ ini : List Tok,
        init_ptr ini =
          [⟨"Box", spanJoin ini⟩, ⟨"::", spanJoin ini⟩,
           ⟨"into_raw", spanJoin ini⟩, ⟨"(", spanJoin ini⟩,
           ⟨"Box", spanJoin ini⟩, ⟨"::", spanJoin ini⟩,
           ⟨"new", spanJoin ini⟩, ⟨"(", spanJoin ini⟩] ++ ini ++
          [⟨")", spanJoin ini⟩, ⟨")", spanJoin ini⟩]) := by
  refine ⟨([q "#", q "[", q "allow", q "(", q "non_camel_case_types",
      q ")", q "]"] ++ vis ++ [q "struct", name, q ";"] ++
      [q "impl", q "std", q "::", q "ops", q "::", q "Deref", q "for",
       name, q "\x7b", q "type", q "Target", q "="] ++ ty ++
      [q ";", q "fn", q "deref", q "(", q "&", q "self", q ")", q "->",
       q "&"] ++ ty ++ [q "\x7b"] ++
      assert_sync ty ++ assert_sized ty ++
      [q "static", q "ONCE", q ":", q "std", q "::", q "sync", q "::",
       q "Once", q "=", q "std", q "::", q "sync", q "::", q "Once",
       q "::", q "new", q "(", q ")", q ";", q "static", q "mut",
       q "VALUE", q ":", q "*", q "mut"] ++ ty ++
      [q "=", q "0", q "as", q "*", q "mut"] ++ ty ++
      [q ";", q "\x75nsafe", q "\x7b"]) ++
      [q "ONCE", q ".", q "call_once", q "(", q "||", q "VALUE", q "="],
    [q "#", q "[", q "allow", q "(", q "non_camel_case_types",
      q ")", q "]"] ++ vis ++ [q "struct", name, q ";"] ++
      [q "impl", q "std", q "::", q "ops", q "::", q "Deref", q "for",
       name, q "\x7b", q "type", q "Target", q "="] ++ ty ++
      [q ";", q "fn", q "deref", q "(", q "&", q "self", q ")", q "->",
       q "&"] ++ ty ++ [q "\x7b"] ++
      assert_sync ty ++ assert_sized ty ++
      [q "static", q "ONCE", q ":", q "std", q "::", q "sync", q "::",
       q "Once", q "=", q "std", q "::", q "sync", q "::", q "Once",
       q "::", q "new", q "(", q ")", q ";", q "static", q "mut",
       q "VALUE", q ":", q "*", q "mut"] ++ ty ++
      [q "=", q "0", q "as", q "*", q "mut"] ++ ty ++
      [q ";", q "\x75nsafe", q "\x7b"],
    [q ")", q ";", q "&", q "*", q "VALUE", q "\x7d", q "\x7d",
     q "\x7d"], ?_, ?_, ?_⟩
  · simp
  · intro ini
    simp [expanded, List.append_assoc]
  · intro ini
    simp [init_ptr]

end Lazing
